import Mathlib

/-!
Verification development for the VizCraft upload → classify → chart → export
pipeline (`vizcraft.py`).

Modelling conventions:
* Text (upload payloads, CSV text, column names, chart titles, error
  messages) is modelled as `List Nat`, the list of character codes / byte
  values.  All literals used by the program are ASCII, where character
  codes and UTF-8 bytes coincide.
* Pure Python helpers (`parse_contents`, `get_column_types`, `safe_delete`)
  and the Dash callbacks (`update_dropdowns`, `update_graph`,
  `download_csv`, `download_chart`, `download_pdf`) are translated to Lean
  functions of the same name.  The mutable `app.data_store` dict becomes an
  explicit `DataStore` value threaded through the callbacks.
* Behaviour that the program delegates to external libraries (base64,
  pandas CSV parsing/serialisation, plotly express, the filesystem) is
  modelled from the specification's description of those contracts; each
  such definition carries a doc comment saying so.
-/

/-- Character codes of a Lean string literal (all program literals are ASCII,
where character codes and bytes coincide). -/
def strBytes (s : String) : List Nat := s.data.map Char.toNat

/-- Python's `str.split(sep)` for a one-character separator, on code lists:
`"".split(",") = [""]`, `"a,,b".split(",") = ["a","","b"]`. -/
def splitOnByte (sep : Nat) : List Nat → List (List Nat)
  | [] => [[]]
  | b :: rest =>
    if b = sep then [] :: splitOnByte sep rest
    else
      match splitOnByte sep rest with
      | [] => [[b]]
      | cur :: parts => (b :: cur) :: parts

/-- Python's `sep.join(parts)` for a one-character separator. -/
def joinBy (sep : Nat) : List (List Nat) → List Nat
  | [] => []
  | [p] => p
  | p :: q :: rest => p ++ sep :: joinBy sep (q :: rest)

theorem splitOnByte_ne_nil (sep : Nat) (s : List Nat) : splitOnByte sep s ≠ [] := by
  cases s with
  | nil => simp [splitOnByte]
  | cons b rest =>
    simp only [splitOnByte]
    split
    · simp
    · split <;> simp

theorem splitOnByte_no_sep (sep : Nat) (s : List Nat) (h : sep ∉ s) :
    splitOnByte sep s = [s] := by
  induction s with
  | nil => rfl
  | cons b rest ih =>
    simp only [List.mem_cons, not_or] at h
    have hb : ¬b = sep := fun hh => h.1 hh.symm
    simp only [splitOnByte, if_neg hb, ih h.2]

theorem splitOnByte_append_sep (sep : Nat) (p rest : List Nat) (hp : sep ∉ p) :
    splitOnByte sep (p ++ sep :: rest) = p :: splitOnByte sep rest := by
  induction p with
  | nil => simp [splitOnByte]
  | cons b p' ih =>
    simp only [List.mem_cons, not_or] at hp
    have hb : ¬b = sep := fun hh => hp.1 hh.symm
    simp only [List.cons_append, splitOnByte, if_neg hb, List.append_eq, ih hp.2]

/-- Splitting is a left inverse of joining, for non-empty part lists whose
parts avoid the separator. -/
theorem splitOnByte_joinBy (sep : Nat) (parts : List (List Nat))
    (hne : parts ≠ []) (h : ∀ p ∈ parts, sep ∉ p) :
    splitOnByte sep (joinBy sep parts) = parts := by
  induction parts with
  | nil => exact absurd rfl hne
  | cons p rest ih =>
    cases rest with
    | nil =>
      simp only [joinBy]
      exact splitOnByte_no_sep sep p (h p (by simp))
    | cons q rest' =>
      simp only [joinBy]
      rw [splitOnByte_append_sep sep p _ (h p (by simp))]
      rw [ih (by simp) (fun p' hp' => h p' (List.mem_cons_of_mem _ hp'))]

/-- Joining is a left inverse of splitting (unconditionally). -/
theorem joinBy_splitOnByte (sep : Nat) (s : List Nat) :
    joinBy sep (splitOnByte sep s) = s := by
  induction s with
  | nil => rfl
  | cons b rest ih =>
    simp only [splitOnByte]
    split
    · subst b
      rcases hsp : splitOnByte sep rest with _ | ⟨cur, parts⟩
      · exact absurd hsp (splitOnByte_ne_nil sep rest)
      · rw [hsp] at ih
        simpa [joinBy] using ih
    · rcases hsp : splitOnByte sep rest with _ | ⟨cur, parts⟩
      · exact absurd hsp (splitOnByte_ne_nil sep rest)
      · rw [hsp] at ih
        cases parts with
        | nil => simpa [joinBy] using ih
        | cons r rs => simpa [joinBy] using ih

theorem splitOnByte_parts_no_sep (sep : Nat) (s : List Nat) :
    ∀ p ∈ splitOnByte sep s, sep ∉ p := by
  induction s with
  | nil => simp [splitOnByte]
  | cons b rest ih =>
    by_cases hb : b = sep
    · subst hb
      simp only [splitOnByte, if_pos rfl]
      intro p hp
      rcases List.mem_cons.mp hp with h | h
      · simp [h]
      · exact ih p h
    · simp only [splitOnByte, if_neg hb]
      rcases hsp : splitOnByte sep rest with _ | ⟨cur, parts⟩
      · exact absurd hsp (splitOnByte_ne_nil sep rest)
      · rw [hsp] at ih
        intro p hp
        rcases List.mem_cons.mp hp with h | h
        · subst h
          intro hmem
          rcases List.mem_cons.mp hmem with h' | h'
          · exact hb h'.symm
          · exact ih cur (by simp) h'
        · exact ih p (List.mem_cons_of_mem _ h)

example : strBytes "ab," = [97, 98, 44] := by decide
example : splitOnByte 44 (strBytes "a,b") = [[97], [98]] := by decide
example : splitOnByte 44 (strBytes "ab") = [strBytes "ab"] := by decide
example : splitOnByte 44 (strBytes "a,,b") = [[97], [], [98]] := by decide

/-- The standard base64 alphabet character for a 6-bit value. -/
def b64charOf (s : Nat) : Nat :=
  if s < 26 then 65 + s
  else if s < 52 then 97 + (s - 26)
  else if s < 62 then 48 + (s - 52)
  else if s = 62 then 43
  else 47

/-- Reverse lookup into the base64 alphabet. -/
def b64valOf (c : Nat) : Option Nat :=
  if 65 ≤ c ∧ c ≤ 90 then some (c - 65)
  else if 97 ≤ c ∧ c ≤ 122 then some (26 + (c - 97))
  else if 48 ≤ c ∧ c ≤ 57 then some (52 + (c - 48))
  else if c = 43 then some 62
  else if c = 47 then some 63
  else none

/-- A character the base64 decoder keeps: alphabet characters and `=`.
Python's `base64.b64decode` discards all other characters before decoding. -/
def isB64Keep (c : Nat) : Bool := (b64valOf c).isSome || c = 61

/-- Base64 encoding of a byte sequence (with `=` padding), as performed by
the browser before an upload reaches the server. -/
def b64encode : List Nat → List Nat
  | [] => []
  | [b0] => [b64charOf (b0 / 4), b64charOf (b0 % 4 * 16), 61, 61]
  | [b0, b1] => [b64charOf (b0 / 4), b64charOf (b0 % 4 * 16 + b1 / 16), b64charOf (b1 % 16 * 4), 61]
  | b0 :: b1 :: b2 :: rest =>
    b64charOf (b0 / 4) :: b64charOf (b0 % 4 * 16 + b1 / 16) ::
    b64charOf (b1 % 16 * 4 + b2 / 64) :: b64charOf (b2 % 64) :: b64encode rest

/-- Decoding of a filtered base64 character stream, four characters at a
time; `=` padding is accepted only at the very end. -/
def b64decodeGroups : List Nat → Option (List Nat)
  | [] => some []
  | c0 :: c1 :: c2 :: c3 :: rest =>
    match b64valOf c0, b64valOf c1 with
    | some s0, some s1 =>
      if c2 = 61 ∧ c3 = 61 ∧ rest = [] then
        some [s0 * 4 + s1 / 16]
      else if c3 = 61 ∧ rest = [] then
        match b64valOf c2 with
        | some s2 => some [s0 * 4 + s1 / 16, s1 % 16 * 16 + s2 / 4]
        | none => none
      else
        match b64valOf c2, b64valOf c3 with
        | some s2, some s3 =>
          (b64decodeGroups rest).map
            (fun bs => (s0 * 4 + s1 / 16) :: (s1 % 16 * 16 + s2 / 4) :: (s2 % 4 * 64 + s3) :: bs)
        | _, _ => none
    | _, _ => none
  | _ => none

/-- Modelled from the spec: `base64.b64decode` as called by `parse_contents`
(line 95) — non-alphabet characters are discarded, then the stream is decoded
in four-character groups; any malformed remainder fails (in the source this
surfaces as the caught exception). -/
def b64decode (s : List Nat) : Option (List Nat) :=
  b64decodeGroups (s.filter isB64Keep)

theorem b64valOf_b64charOf (s : Nat) (h : s < 64) : b64valOf (b64charOf s) = some s := by
  have hfin : ∀ t : Fin 64, b64valOf (b64charOf t.1) = some t.1 := by decide
  exact hfin ⟨s, h⟩

theorem isB64Keep_b64charOf (s : Nat) (h : s < 64) : isB64Keep (b64charOf s) = true := by
  simp [isB64Keep, b64valOf_b64charOf s h]

theorem b64charOf_ne_61 (s : Nat) (h : s < 64) : b64charOf s ≠ 61 := by
  have hfin : ∀ t : Fin 64, b64charOf t.1 ≠ 61 := by decide
  exact hfin ⟨s, h⟩

theorem b64charOf_ne_44 (s : Nat) (h : s < 64) : b64charOf s ≠ 44 := by
  have hfin : ∀ t : Fin 64, b64charOf t.1 ≠ 44 := by decide
  exact hfin ⟨s, h⟩

/-- Every character emitted by the encoder is kept by the decoder's filter. -/
theorem b64encode_mem_keep (bs : List Nat) (h : ∀ b ∈ bs, b < 256) :
    ∀ c ∈ b64encode bs, isB64Keep c = true := by
  induction bs using b64encode.induct with
  | case1 => simp [b64encode]
  | case2 b0 =>
    have h0 := h b0 (by simp)
    intro c hc
    simp only [b64encode, List.mem_cons, List.not_mem_nil, or_false] at hc
    rcases hc with rfl | rfl | rfl | rfl
    · exact isB64Keep_b64charOf _ (by omega)
    · exact isB64Keep_b64charOf _ (by omega)
    · simp [isB64Keep]
    · simp [isB64Keep]
  | case3 b0 b1 =>
    have h0 := h b0 (by simp); have h1 := h b1 (by simp)
    intro c hc
    simp only [b64encode, List.mem_cons, List.not_mem_nil, or_false] at hc
    rcases hc with rfl | rfl | rfl | rfl
    · exact isB64Keep_b64charOf _ (by omega)
    · exact isB64Keep_b64charOf _ (by omega)
    · exact isB64Keep_b64charOf _ (by omega)
    · simp [isB64Keep]
  | case4 b0 b1 b2 rest ih =>
    have h0 := h b0 (by simp); have h1 := h b1 (by simp); have h2 := h b2 (by simp)
    intro c hc
    simp only [b64encode, List.mem_cons] at hc
    rcases hc with rfl | rfl | rfl | rfl | hc
    · exact isB64Keep_b64charOf _ (by omega)
    · exact isB64Keep_b64charOf _ (by omega)
    · exact isB64Keep_b64charOf _ (by omega)
    · exact isB64Keep_b64charOf _ (by omega)
    · exact ih (fun b hb => h b (by simp [hb])) c hc

/-- The encoder never emits a comma. -/
theorem b64encode_no_comma (bs : List Nat) (h : ∀ b ∈ bs, b < 256) :
    44 ∉ b64encode bs := by
  intro hmem
  have := b64encode_mem_keep bs h 44 hmem
  simp [isB64Keep, b64valOf] at this

theorem b64decodeGroups_b64encode (bs : List Nat) (h : ∀ b ∈ bs, b < 256) :
    b64decodeGroups (b64encode bs) = some bs := by
  induction bs using b64encode.induct with
  | case1 => rfl
  | case2 b0 =>
    have h0 := h b0 (by simp)
    have e0 := b64valOf_b64charOf (b0 / 4) (by omega)
    have e1 := b64valOf_b64charOf (b0 % 4 * 16) (by omega)
    simp only [b64encode, b64decodeGroups, e0, e1, and_self, if_pos, and_true]
    simp only [Option.some.injEq, List.cons.injEq, and_true]
    omega
  | case3 b0 b1 =>
    have h0 := h b0 (by simp); have h1 := h b1 (by simp)
    have e0 := b64valOf_b64charOf (b0 / 4) (by omega)
    have e1 := b64valOf_b64charOf (b0 % 4 * 16 + b1 / 16) (by omega)
    have e2 := b64valOf_b64charOf (b1 % 16 * 4) (by omega)
    have ne2 := b64charOf_ne_61 (b1 % 16 * 4) (by omega)
    simp only [b64encode, b64decodeGroups, e0, e1, e2, ne2, false_and, if_neg, and_self,
      and_true, if_pos, not_false_iff]
    simp only [Option.some.injEq, List.cons.injEq, and_true]
    omega
  | case4 b0 b1 b2 rest ih =>
    have h0 := h b0 (by simp); have h1 := h b1 (by simp); have h2 := h b2 (by simp)
    have e0 := b64valOf_b64charOf (b0 / 4) (by omega)
    have e1 := b64valOf_b64charOf (b0 % 4 * 16 + b1 / 16) (by omega)
    have e2 := b64valOf_b64charOf (b1 % 16 * 4 + b2 / 64) (by omega)
    have e3 := b64valOf_b64charOf (b2 % 64) (by omega)
    have ne2 := b64charOf_ne_61 (b1 % 16 * 4 + b2 / 64) (by omega)
    have ne3 := b64charOf_ne_61 (b2 % 64) (by omega)
    have hrest := ih (fun b hb => h b (by simp [hb]))
    simp only [b64encode, b64decodeGroups, e0, e1, e2, e3, ne2, ne3, false_and, and_false,
      if_neg, not_false_iff, hrest]
    rw [Option.map_some']
    simp only [Option.some.injEq, List.cons.injEq, and_true]
    refine ⟨by omega, by omega, by omega⟩

/-- Round trip: decoding an encoded byte sequence restores it exactly. -/
theorem b64decode_b64encode (bs : List Nat) (h : ∀ b ∈ bs, b < 256) :
    b64decode (b64encode bs) = some bs := by
  unfold b64decode
  rw [List.filter_eq_self.mpr (b64encode_mem_keep bs h)]
  exact b64decodeGroups_b64encode bs h

example : b64decode (strBytes "YSxiLGM=") = some (strBytes "a,b,c") := by decide
example : b64decode (b64encode (strBytes "hdr")) = some (strBytes "hdr") := by decide

/-- Decimal digit value of a character code. -/
def digitVal (b : Nat) : Option Nat :=
  if 48 ≤ b ∧ b ≤ 57 then some (b - 48) else none

/-- Accumulating decimal parser over character codes. -/
def parseNatGo (acc : Nat) : List Nat → Option Nat
  | [] => some acc
  | b :: rest =>
    match digitVal b with
    | some d => parseNatGo (acc * 10 + d) rest
    | none => none

/-- Parse a non-empty all-digit field as a natural number. -/
def parseNat (f : List Nat) : Option Nat :=
  if f = [] then none else parseNatGo 0 f

/-- Parse an optionally `-`-signed integer literal, the per-column numeric
test used to model the dataframe's load-time type inference. -/
def parseInt (f : List Nat) : Option Int :=
  match f with
  | 45 :: rest => (parseNat rest).map (fun n => -(n : Int))
  | _ => (parseNat f).map (fun n => (n : Int))

/-- Least-significant-first decimal digits, with explicit fuel so the
definition is structurally recursive (and hence kernel-computable). -/
def natDigitsRev (fuel : Nat) (n : Nat) : List Nat :=
  match fuel with
  | 0 => []
  | fuel + 1 => if n = 0 then [] else n % 10 :: natDigitsRev fuel (n / 10)

theorem natDigitsRev_eq_digits (fuel n : Nat) (h : n ≤ fuel) :
    natDigitsRev fuel n = Nat.digits 10 n := by
  induction fuel generalizing n with
  | zero =>
    interval_cases n
    simp [natDigitsRev]
  | succ fuel ih =>
    by_cases h0 : n = 0
    · subst h0; simp [natDigitsRev]
    · simp only [natDigitsRev, if_neg h0]
      rw [Nat.digits_def' (by norm_num : 1 < 10) (Nat.pos_of_ne_zero h0)]
      have : n / 10 ≤ fuel := by
        have := Nat.div_lt_self (Nat.pos_of_ne_zero h0) (by norm_num : 1 < 10)
        omega
      rw [ih (n / 10) this]

/-- Canonical decimal character codes of a natural number. -/
def natToBytes (n : Nat) : List Nat :=
  if n = 0 then [48] else (natDigitsRev n n).reverse.map (· + 48)

/-- Canonical decimal character codes of an integer. -/
def intToBytes (i : Int) : List Nat :=
  if i < 0 then 45 :: natToBytes i.natAbs else natToBytes i.natAbs

theorem parseNatGo_digits (ds : List Nat) (hds : ∀ d ∈ ds, d < 10) :
    ∀ acc, parseNatGo acc (ds.map (· + 48)) =
      some (ds.foldl (fun a d => a * 10 + d) acc) := by
  induction ds with
  | nil => intro acc; rfl
  | cons d ds ih =>
    intro acc
    have hd : d < 10 := hds d (by simp)
    have h48 : d + 48 - 48 = d := by omega
    have hdv : digitVal (d + 48) = some d := by
      unfold digitVal
      rw [if_pos (by omega : 48 ≤ d + 48 ∧ d + 48 ≤ 57), h48]
    simp only [List.map_cons, parseNatGo, hdv, List.foldl_cons]
    exact ih (fun x hx => hds x (by simp [hx])) (acc * 10 + d)

theorem foldl_reverse_ofDigits (ds : List Nat) :
    ∀ acc, ds.reverse.foldl (fun a d => a * 10 + d) acc =
      acc * 10 ^ ds.length + Nat.ofDigits 10 ds := by
  induction ds with
  | nil => intro acc; simp [Nat.ofDigits]
  | cons d ds ih =>
    intro acc
    simp only [List.reverse_cons, List.foldl_append, List.foldl_cons, List.foldl_nil, ih,
      Nat.ofDigits_cons, List.length_cons]
    ring

theorem natToBytes_eq (n : Nat) :
    natToBytes n = if n = 0 then [48] else (Nat.digits 10 n).reverse.map (· + 48) := by
  unfold natToBytes
  rw [natDigitsRev_eq_digits n n le_rfl]

theorem parseNat_natToBytes (n : Nat) : parseNat (natToBytes n) = some n := by
  rw [natToBytes_eq]
  by_cases h0 : n = 0
  · subst h0; rfl
  · have hne : Nat.digits 10 n ≠ [] := Nat.digits_ne_nil_iff_ne_zero.mpr h0
    have hlt : ∀ d ∈ Nat.digits 10 n, d < 10 :=
      fun d hd => Nat.digits_lt_base (by norm_num) hd
    have hmapne : (Nat.digits 10 n).reverse.map (· + 48) ≠ [] := by
      simp [hne]
    rw [if_neg h0]
    unfold parseNat
    rw [if_neg hmapne]
    rw [parseNatGo_digits _ (fun d hd => hlt d (List.mem_reverse.mp hd)) 0]
    rw [foldl_reverse_ofDigits]
    simp [Nat.ofDigits_digits]

theorem natToBytes_digitlike (n : Nat) : ∀ b ∈ natToBytes n, 48 ≤ b ∧ b ≤ 57 := by
  rw [natToBytes_eq]
  split
  · simp
  · intro b hb
    simp only [List.mem_map, List.mem_reverse] at hb
    obtain ⟨d, hd, rfl⟩ := hb
    have := Nat.digits_lt_base (by norm_num) hd
    omega

theorem natToBytes_ne_nil (n : Nat) : natToBytes n ≠ [] := by
  rw [natToBytes_eq]
  split
  · simp
  · next h0 => simp [Nat.digits_ne_nil_iff_ne_zero.mpr h0]

/-- Round trip: the canonical decimal form of an integer parses back to it. -/
theorem parseInt_intToBytes (i : Int) : parseInt (intToBytes i) = some i := by
  by_cases hneg : i < 0
  · unfold intToBytes
    rw [if_pos hneg]
    unfold parseInt
    simp [parseNat_natToBytes, Int.ofNat_natAbs_of_nonpos (le_of_lt hneg)]
  · unfold intToBytes
    rw [if_neg hneg]
    have hhead : ∀ rest, natToBytes i.natAbs ≠ 45 :: rest := by
      intro rest hcontra
      have := natToBytes_digitlike i.natAbs 45 (by rw [hcontra]; simp)
      omega
    rcases hb : natToBytes i.natAbs with _ | ⟨b, rest⟩
    · exact absurd hb (natToBytes_ne_nil _)
    · have hb45 : b ≠ 45 := by
        intro hcontra
        exact hhead rest (by rw [hb, hcontra])
      have hmatch : parseInt (b :: rest) = (parseNat (b :: rest)).map (fun n => (n : Int)) := by
        unfold parseInt
        split
        · next heq =>
          injection heq with h1 h2
          exact absurd h1 hb45
        · rfl
      rw [← hb] at hmatch ⊢
      rw [hmatch, parseNat_natToBytes]
      simp
      omega

example : parseInt (strBytes "-042") = some (-42) := by decide
example : parseInt (strBytes "3.5") = none := by decide
example : parseInt (strBytes "") = none := by decide
example : intToBytes (-42) = strBytes "-42" := by decide

/-- A scalar value held by a Table column: numeric, text, or missing
(spec section 3, Table). -/
inductive Cell where
  | int (n : Int)
  | str (s : List Nat)
  | na
deriving DecidableEq, Repr

/-- A cell as written by CSV serialisation (missing values serialise to the
empty field, integers to their canonical decimal form). -/
def cellToBytes : Cell → List Nat
  | .int n => intToBytes n
  | .str s => s
  | .na => []

/-- The `Table` data model (spec section 3): ordered named columns of equal
length; `dtypes` records the per-column numeric flag inferred at load time,
`rows` holds the typed cells row-major. -/
structure Table where
  header : List (List Nat)
  dtypes : List Bool
  rows : List (List Cell)
deriving DecidableEq, Repr

/-- Typing of one raw field under a column numeric flag: fields of numeric
columns become integers, empty fields of textual columns are missing, other
fields stay text. -/
def cellOf (isNum : Bool) (f : List Nat) : Cell :=
  if isNum then
    match parseInt f with
    | some n => .int n
    | none => .na
  else if f = [] then .na
  else .str f

/-- The normal form CSV serialisation gives back for a raw field: numeric
columns re-serialise canonically, all other fields round-trip verbatim. -/
def normField (isNum : Bool) (f : List Nat) : List Nat :=
  if isNum then
    match parseInt f with
    | some n => intToBytes n
    | none => f
  else f

/-- Per-column numeric flags: a column is numeric when every raw field in it
parses as an integer literal (spec section 4.2's load-time inference). -/
def colMask (width : Nat) (rawRows : List (List (List Nat))) : List Bool :=
  (List.range width).map (fun j => rawRows.all (fun r => (parseInt (r.getD j [])).isSome))

/-- Modelled from the spec: `pd.read_csv` as called by `parse_contents`
(line 97) — header row gives the column names, blank lines are skipped,
comma-separated fields, a row width differing from the header is a parse
failure (spec section 4.1, "inconsistent row widths"), and per-column type
inference marks a column numeric when every field parses as an integer
literal (fractional numbers are treated as text in this model; their exact
float representation is outside its scope). -/
def read_csv (bytes : List Nat) : Option Table :=
  let lines := (splitOnByte 10 bytes).filter (fun l => l ≠ [])
  match lines with
  | [] => none
  | headerLine :: rowLines =>
    let header := splitOnByte 44 headerLine
    let rawRows := rowLines.map (splitOnByte 44)
    if rawRows.all (fun r => r.length = header.length) then
      let mask := colMask header.length rawRows
      some ⟨header, mask, rawRows.map (fun r => List.zipWith cellOf mask r)⟩
    else none

/-- Modelled from the spec: `df.to_csv(..., index=False)` as called by
`download_csv` (line 242) — header row then data rows, comma-separated,
each line terminated by a newline, no index column. -/
def to_csv (t : Table) : List Nat :=
  joinBy 44 t.header ++ 10 :: (t.rows.map (fun r => joinBy 44 (r.map cellToBytes) ++ [10])).flatten

/-- The spec's load-error taxonomy (section 7).  The source's
`parse_contents` collapses every failure to `None` through its catch-all
`except`; the spec names the stage at which each failure arises, which this
model records. -/
inductive LoadError where
  | malformedUpload
  | payloadTooLarge
  | parseFailure
deriving DecidableEq, Repr

deriving instance DecidableEq for Except

/-- `parse_contents` (source lines 92-100): split the data-URI payload on
commas into exactly a descriptor and a base64 body, base64-decode the body,
and parse the decoded bytes as CSV.  Any failure is a `LoadError` (the
source returns `None`; the error labels follow the spec's taxonomy). -/
def parse_contents (contents : List Nat) : Except LoadError Table :=
  match splitOnByte 44 contents with
  | [_content_type, content_string] =>
    match b64decode content_string with
    | none => .error .parseFailure
    | some decoded =>
      match read_csv decoded with
      | none => .error .parseFailure
      | some df => .ok df
  | _ => .error .malformedUpload

/-- `MAX_CONTENT_LENGTH` (source line 20): 5 MB upload limit installed on
the server at the boundary. -/
def MAX_CONTENT_LENGTH : Nat := 5 * 1024 * 1024

/-- The stages of the load pipeline, used to record which steps a load
attempt actually performs. -/
inductive LoadStep where
  | sizeCheck
  | split
  | b64
  | csv
deriving DecidableEq, Repr

/-- Modelled from the spec: the boundary size enforcement (spec section 4.1:
payloads exceeding `MAX_CONTENT_LENGTH` are rejected before decode is
attempted; in the source the server enforces the configured limit before the
upload callback runs).  The result is paired with the ordered list of
pipeline steps actually performed, so that "before decode" is expressible. -/
def boundaryLoadTrace (payload : List Nat) : Except LoadError Table × List LoadStep :=
  if payload.length > MAX_CONTENT_LENGTH then
    (.error .payloadTooLarge, [.sizeCheck])
  else
    match splitOnByte 44 payload with
    | [_content_type, content_string] =>
      match b64decode content_string with
      | none => (.error .parseFailure, [.sizeCheck, .split, .b64])
      | some decoded =>
        match read_csv decoded with
        | none => (.error .parseFailure, [.sizeCheck, .split, .b64, .csv])
        | some df => (.ok df, [.sizeCheck, .split, .b64, .csv])
    | _ => (.error .malformedUpload, [.sizeCheck, .split])

/-- Within the size limit, the traced pipeline computes exactly
`parse_contents`. -/
theorem boundaryLoadTrace_fst (payload : List Nat) (h : ¬payload.length > MAX_CONTENT_LENGTH) :
    (boundaryLoadTrace payload).1 = parse_contents payload := by
  unfold boundaryLoadTrace parse_contents
  rw [if_neg h]
  rcases splitOnByte 44 payload with _ | ⟨a, _ | ⟨b, _ | _⟩⟩ <;> simp <;>
    rcases b64decode _ with _ | d <;> simp <;> rcases read_csv d with _ | t <;> simp

example :
    parse_contents (strBytes "data:text/csv;base64," ++ b64encode (strBytes "a,b\n1,x\n2,y")) =
      .ok ⟨[[97], [98]], [true, false], [[.int 1, .str [120]], [.int 2, .str [121]]]⟩ := by
  decide
example : parse_contents (strBytes "no comma here") = .error .malformedUpload := by decide

/-- The user-facing chart-type enumeration (source lines 54-60). -/
inductive ChartKind where
  | bar
  | line
  | pie
  | scatter
  | area
deriving DecidableEq, Repr

/-- The data part of a built chart: either directly plotted x/y columns or
pie slices (name paired with aggregated value). -/
inductive FigData where
  | plain (kind : ChartKind) (xs ys : List Cell)
  | pieSlices (slices : List (Cell × Int))
deriving DecidableEq, Repr

/-- The layout applied to every successful chart (source lines 206-210):
legend enabled, fixed height 500, margins t/b/l/r = 50. -/
structure LayoutSpec where
  showlegend : Bool
  height : Nat
  marginT : Nat
  marginB : Nat
  marginL : Nat
  marginR : Nat
deriving DecidableEq, Repr

def stdLayout : LayoutSpec := ⟨true, 500, 50, 50, 50, 50⟩

/-- A renderable chart object. -/
structure Fig where
  data : FigData
  title : List Nat
  layout : Option LayoutSpec
deriving DecidableEq, Repr

/-- One entry of the placeholder chart's `annotations` list (source lines
221-229). -/
structure AnnSpec where
  text : List Nat
  showarrow : Bool
  xref : List Nat
  yref : List Nat
  x : ℚ
  y : ℚ
  fontSize : Nat
deriving DecidableEq, Repr

/-- The layout of the placeholder error chart returned from the `except`
branch of `update_graph` (source lines 215-231): the error message in the
title, both axes hidden, and a fixed advisory text centered on the paper. -/
structure ErrLayout where
  title : List Nat
  xaxisVisible : Bool
  yaxisVisible : Bool
  anns : List AnnSpec
deriving DecidableEq, Repr

/-- The fixed advisory annotation text (source line 222). -/
def errAdvisoryText : List Nat := strBytes "⚠️ Check your data and column selections."

/-- The paper coordinate 0.5 ("centered"), written as a literal reduced
fraction so that kernel evaluation of the placeholder chart works. -/
def annHalf : ℚ := ⟨1, 2, by norm_num, by norm_num⟩

theorem annHalf_eq : annHalf = 1 / 2 := by
  have h := Rat.num_div_den annHalf
  rw [show annHalf.num = 1 from rfl, show annHalf.den = 2 from rfl] at h
  push_cast at h
  exact h.symm

def errLayout (msg : List Nat) : ErrLayout :=
  { title := strBytes "Error creating chart: " ++ msg
    xaxisVisible := false
    yaxisVisible := false
    anns := [⟨errAdvisoryText, false, strBytes "paper", strBytes "paper", annHalf, annHalf, 16⟩] }

/-- What `update_graph` hands back to the UI: the empty result `{}` when
nothing is selected, a real figure, or the placeholder error chart. -/
inductive BuildResult where
  | empty
  | fig (f : Fig)
  | errorFig (e : ErrLayout)
deriving DecidableEq, Repr

/-- Index of the first occurrence of a name in a list of names. -/
def idxOf? (name : List Nat) : List (List Nat) → Option Nat
  | [] => none
  | h :: rest => if h = name then some 0 else (idxOf? name rest).map (· + 1)

theorem idxOf?_isSome_iff (name : List Nat) (l : List (List Nat)) :
    (idxOf? name l).isSome ↔ name ∈ l := by
  induction l with
  | nil => simp [idxOf?]
  | cons h rest ih =>
    by_cases hh : h = name
    · simp [idxOf?, hh]
    · have hm : (Option.map (fun x => x + 1) (idxOf? name rest)).isSome
          = (idxOf? name rest).isSome := by
        cases idxOf? name rest <;> rfl
      simp only [idxOf?, if_neg hh, hm, ih, List.mem_cons]
      constructor
      · exact Or.inr
      · rintro (rfl | hmem)
        · exact absurd rfl hh
        · exact hmem

/-- Column lookup by name. -/
def colIdx (t : Table) (name : List Nat) : Option Nat :=
  idxOf? name t.header

/-- The cells of a named column (empty if the name is absent). -/
def getCol (t : Table) (name : List Nat) : List Cell :=
  match colIdx t name with
  | some j => t.rows.map (fun r => r.getD j .na)
  | none => []

/-- A column usable as numbers: every cell is an integer value. -/
def colNumeric (t : Table) (name : List Nat) : Bool :=
  (getCol t name).all (fun c => match c with | .int _ => true | _ => false)

/-- `df.groupby(x_col)[y_col].sum()` (source line 203): rows with a missing
key are dropped (pandas `groupby` default), then each distinct key is paired
with the sum of its values.  (pandas additionally sorts the keys; the claims
here are order-insensitive, so key order is left as first occurrence of the
deduplicated key list.) -/
def groupbySum (pairs : List (Cell × Cell)) : List (Cell × Int) :=
  let kept := pairs.filter (fun p => p.1 ≠ .na)
  (kept.map Prod.fst).dedup.map
    (fun k => (k, ((kept.filter (fun p => p.1 = k)).map
      (fun p => match p.2 with | .int n => n | _ => 0)).sum))

/-- The title f-strings of `update_graph` (source lines 195-204). -/
def chartTitle (k : ChartKind) (x y : List Nat) : List Nat :=
  match k with
  | .bar => strBytes "Bar Chart: " ++ y ++ strBytes " vs " ++ x
  | .line => strBytes "Line Chart: " ++ y ++ strBytes " vs " ++ x
  | .scatter => strBytes "Scatter Plot: " ++ y ++ strBytes " vs " ++ x
  | .area => strBytes "Area Plot: " ++ y ++ strBytes " over " ++ x
  | .pie => strBytes "Pie Chart: " ++ y ++ strBytes " by " ++ x

/-- Modelled from the spec: the plotly-express transform invoked per chart
kind (source lines 194-204, spec section 4.3).  A missing column raises; a
scatter with point size keyed by a non-numeric y raises (spec: "non-numeric
y for size is an error case"); pie aggregates y by summing within each
distinct x (the `groupby` on source line 203) and needs numeric y for its
slice values.  A raised exception is returned as `.error` with the
exception's message. -/
def pxTransform (k : ChartKind) (t : Table) (x y : List Nat) :
    Except (List Nat) FigData :=
  if (colIdx t x).isNone then .error (strBytes "x column not found")
  else if (colIdx t y).isNone then .error (strBytes "y column not found")
  else
    match k with
    | .bar => .ok (.plain .bar (getCol t x) (getCol t y))
    | .line => .ok (.plain .line (getCol t x) (getCol t y))
    | .area => .ok (.plain .area (getCol t x) (getCol t y))
    | .scatter =>
      if colNumeric t y then .ok (.plain .scatter (getCol t x) (getCol t y))
      else .error (strBytes "size values must be numeric")
    | .pie =>
      if colNumeric t y then .ok (.pieSlices (groupbySum ((getCol t x).zip (getCol t y))))
      else .error (strBytes "pie values must be numeric")

/-- The process-wide `app.data_store` dict (source line 103) plus the keys
the callbacks store under it (`df`, `numeric_cols`, `categorical_cols`,
`fig`); a key never yet written is `none`. -/
structure DataStore where
  df : Option Table
  numeric_cols : Option (List (List Nat))
  categorical_cols : Option (List (List Nat))
  fig : Option Fig
deriving DecidableEq, Repr

/-- The store at process start: `app.data_store = {}`. -/
def emptyStore : DataStore := ⟨none, none, none, none⟩

/-- `get_column_types` (source lines 106-114): walk the columns in order and
append each to the numeric or the categorical list according to the stored
column dtype. -/
def get_column_types (t : Table) : List (List Nat) × List (List Nat) :=
  (((t.header.zip t.dtypes).filter (fun p => p.2)).map Prod.fst,
   ((t.header.zip t.dtypes).filter (fun p => !p.2)).map Prod.fst)

/-- The outputs of the upload callback: cleared dropdowns, the error alert,
or dropdown options plus a preview of the first five rows. -/
inductive UploadOut where
  | cleared
  | alert
  | preview (options : List (List Nat)) (head : List (List Cell))
deriving DecidableEq, Repr

/-- `update_dropdowns` (source lines 134-156): `None` contents clear the
outputs; a failed parse shows the alert and returns without touching the
store; a successful parse stores the table and its column classification
(and nothing else) and shows options plus a five-row preview. -/
def update_dropdowns (contents : Option (List Nat)) (store : DataStore) :
    UploadOut × DataStore :=
  match contents with
  | none => (.cleared, store)
  | some c =>
    match parse_contents c with
    | .error _ => (.alert, store)
    | .ok df =>
      let types := get_column_types df
      (.preview df.header (df.rows.take 5),
       { store with
           df := some df
           numeric_cols := some types.1
           categorical_cols := some types.2 })

/-- `update_graph` (source lines 188-231): empty result when the table or
either axis selection is missing; otherwise run the kind's transform inside
`try`, on success apply the standard layout and store the figure, on an
exception return the placeholder error chart (without touching the store). -/
def update_graph (store : DataStore) (chart_type : ChartKind)
    (x_col y_col : Option (List Nat)) : BuildResult × DataStore :=
  match store.df, x_col, y_col with
  | some df, some x, some y =>
    match pxTransform chart_type df x y with
    | .ok figData =>
      let fig : Fig := ⟨figData, chartTitle chart_type x y, some stdLayout⟩
      (.fig fig, { store with fig := some fig })
    | .error e => (.errorFig (errLayout e), store)
  | _, _, _ => (.empty, store)

/-- `download_csv` (source lines 239-242): serialise the current table with
`index=False` under the name `data.csv`; `None` (no download) if no table
is loaded. -/
def download_csv (store : DataStore) : Option (List Nat × List Nat) :=
  match store.df with
  | some df => some (to_csv df, strBytes "data.csv")
  | none => none

/-- `download_chart` (source lines 249-253): rasterise the current figure at
1200x800 under the name `chart.png`; `None` if no figure was ever built.
The rasteriser itself is delegated (`fig.to_image`), so it is passed in as a
function. -/
def download_chart (render : Fig → Nat → Nat → List Nat) (store : DataStore) :
    Option (List Nat × List Nat) :=
  match store.fig with
  | some fig => some (render fig 1200 800, strBytes "chart.png")
  | none => none

example :
    (update_graph ⟨some ⟨[[120], [121]], [false, true],
        [[.str [65], .int 3], [.str [66], .int 5], [.str [65], .int 2]]⟩, none, none, none⟩
      .pie (some [120]) (some [121])).1 =
    .fig ⟨.pieSlices [(.str [66], 5), (.str [65], 5)],
          chartTitle .pie [120] [121], some stdLayout⟩ := by decide

/-- The retry loop body of `safe_delete` (source lines 117-125), walking the
remaining attempt indices.  `locked i` models the file being transiently
locked by another process at attempt `i` (the `PermissionError` the source
catches before sleeping and retrying); the filesystem is the list of
existing paths. -/
def safe_delete_go (locked : Nat → Bool) (fs : List Nat) (p : Nat) :
    List Nat → Bool × List Nat
  | [] => (false, fs)
  | attempt :: restAttempts =>
    if p ∈ fs then
      if locked attempt then safe_delete_go locked fs p restAttempts
      else (true, fs.erase p)
    else (true, fs)

/-- `safe_delete` (source lines 117-125): up to `max_attempts = 5` tries; a
`PermissionError` is caught and the deletion retried after a backoff sleep
(the sleep durations are timing, not modelled); exhausting the attempts
returns `False` instead of raising. -/
def safe_delete (locked : Nat → Bool) (fs : List Nat) (p : Nat) : Bool × List Nat :=
  safe_delete_go locked fs p (List.range 5)

/-- Where (if anywhere) a delegated step of the PDF export raises, the
failure-injection parameter of the model. -/
inductive PdfStage where
  | toImage
  | mkImgFile
  | writeImg
  | embedImage
  | mkPdfFile
  | outputPdf
  | readPdf
deriving DecidableEq, Repr

/-- A PDF-export scenario: which delegated step (if any) raises, and the
lock schedules another process imposes on the two temporary files. -/
structure PdfScenario where
  failAt : Option PdfStage
  lockImg : Nat → Bool
  lockPdf : Nat → Bool

def PdfScenario.fails (sc : PdfScenario) (st : PdfStage) : Bool := sc.failAt = some st

/-- Modelled from the spec: the PDF document assembled by `download_pdf`
(source lines 273-295) — title line, the chart image, then the column
headers and first 10 data rows as a grid with cell text truncated to 15
characters. -/
def pdfDoc (img : List Nat) (t : Table) : List Nat :=
  strBytes "VizCraft: Data Visualization Report" ++ img ++
  (t.header.map (fun c => c.take 15)).flatten ++
  ((t.rows.take 10).map (fun r => (r.map (fun c => (cellToBytes c).take 15)).flatten)).flatten

/-- Outcome of the try-block of `download_pdf`, before the `finally`. -/
inductive PdfTryResult where
  | ok (bytes : List Nat)
  | exn
deriving DecidableEq, Repr

/-- The try-block of `download_pdf` (source lines 267-299), with failure
injection: returns the outcome, the filesystem after the block, and which
of `tmp_img_path` / `tmp_pdf_path` were assigned (the `finally` only
deletes assigned paths).  Creating a temporary file adds its path to the
filesystem; an exception at any step stops the block there. -/
def download_pdf_try (sc : PdfScenario) (img : List Nat) (t : Table)
    (tmpImg tmpPdf : Nat) (fs : List Nat) :
    PdfTryResult × List Nat × Bool × Bool :=
  if sc.fails .mkImgFile then (.exn, fs, false, false)
  else
    let fs1 := tmpImg :: fs
    if sc.fails .writeImg then (.exn, fs1, true, false)
    else if sc.fails .embedImage then (.exn, fs1, true, false)
    else if sc.fails .mkPdfFile then (.exn, fs1, true, false)
    else
      let fs2 := tmpPdf :: fs1
      if sc.fails .outputPdf then (.exn, fs2, true, true)
      else if sc.fails .readPdf then (.exn, fs2, true, true)
      else (.ok (pdfDoc img t), fs2, true, true)

/-- What `download_pdf` hands back: no-op (missing prerequisites), a sent
artifact, or a propagated exception. -/
inductive PdfOutcome where
  | noop
  | sent (bytes : List Nat) (filename : List Nat)
  | raised
deriving DecidableEq, Repr

/-- `download_pdf` (source lines 260-305): requires both the figure and the
table; rasterises the figure (outside the `try`, so a failure there creates
no temporary file); then runs the try-block and, in `finally`, calls
`safe_delete` on each temporary path that was assigned, ignoring the
returned success flag. -/
def download_pdf (render : Fig → Nat → Nat → List Nat) (store : DataStore)
    (sc : PdfScenario) (tmpImg tmpPdf : Nat) (fs : List Nat) :
    PdfOutcome × List Nat :=
  match store.fig, store.df with
  | some fig, some df =>
    if sc.fails .toImage then (.raised, fs)
    else
      let img := render fig 1200 800
      match download_pdf_try sc img df tmpImg tmpPdf fs with
      | (res, fs', imgSet, pdfSet) =>
        let fsA := if imgSet then (safe_delete sc.lockImg fs' tmpImg).2 else fs'
        let fsB := if pdfSet then (safe_delete sc.lockPdf fsA tmpPdf).2 else fsA
        match res with
        | .ok bytes => (.sent bytes (strBytes "report.pdf"), fsB)
        | .exn => (.raised, fsB)
  | _, _ => (.noop, fs)

theorem safe_delete_go_not_mem (locked : Nat → Bool) (fs : List Nat) (p : Nat)
    (attempts : List Nat) (h : p ∉ fs) (hne : attempts ≠ []) :
    safe_delete_go locked fs p attempts = (true, fs) := by
  cases attempts with
  | nil => exact absurd rfl hne
  | cons a rest => simp [safe_delete_go, h]

/-- If some attempt finds the file unlocked, `safe_delete_go` removes it. -/
theorem safe_delete_go_unlocked (locked : Nat → Bool) (fs : List Nat) (p : Nat)
    (attempts : List Nat) (hmem : p ∈ fs) (hfree : ∃ a ∈ attempts, locked a = false) :
    safe_delete_go locked fs p attempts = (true, fs.erase p) := by
  induction attempts with
  | nil => simp at hfree
  | cons a rest ih =>
    simp only [safe_delete_go, if_pos hmem]
    by_cases hl : locked a
    · rw [if_pos hl]
      rcases hfree with ⟨a', ha', hfree'⟩
      rcases List.mem_cons.mp ha' with rfl | h
      · rw [hl] at hfree'; cases hfree'
      · exact ih ⟨a', h, hfree'⟩
    · rw [if_neg hl]

/-- If the file stays locked through every attempt, `safe_delete_go` gives
up, reporting failure and leaving the filesystem unchanged. -/
theorem safe_delete_go_all_locked (locked : Nat → Bool) (fs : List Nat) (p : Nat)
    (attempts : List Nat) (hmem : p ∈ fs) (hlocked : ∀ a ∈ attempts, locked a = true) :
    safe_delete_go locked fs p attempts = (false, fs) := by
  induction attempts with
  | nil => rfl
  | cons a rest ih =>
    simp only [safe_delete_go, if_pos hmem, hlocked a (by simp)]
    exact ih (fun a' ha' => hlocked a' (List.mem_cons_of_mem _ ha'))

/-! Concrete fixtures used by witnesses and counterexamples. -/

/-- A one-column, one-row numeric table. -/
def tinyTable : Table := ⟨[[97]], [true], [[.int 1]]⟩

/-- A two-column table whose `y` column (named `b`, code 98) holds text, so
a scatter or pie build over it hits the non-numeric error case. -/
def strTable : Table := ⟨[[97], [98]], [false, false], [[.str [112], .str [113]]]⟩

/-- A chart left over from an earlier successful build. -/
def oldFig : Fig := ⟨.plain .bar [] [], strBytes "old", some stdLayout⟩

/-- A store holding a table, a column classification and a previously built
chart. -/
def loadedStore : DataStore := ⟨some strTable, some [], some [[97], [98]], some oldFig⟩

/-- C9: with the x-axis or the y-axis selection absent the chart builder
returns the empty result `{}` and leaves the store alone; the empty result
is distinct from every placeholder error chart. -/
theorem build_empty_when_unselected (store : DataStore) (k : ChartKind)
    (x y : Option (List Nat)) (h : x = none ∨ y = none) :
    update_graph store k x y = (.empty, store) ∧
    ∀ e : ErrLayout, BuildResult.empty ≠ .errorFig e := by
  constructor
  · unfold update_graph
    rcases h with rfl | rfl
    · cases store.df <;> cases y <;> rfl
    · cases store.df <;> cases x <;> rfl
  · intro e hc
    cases hc

theorem build_empty_when_unselected_witness :
    ((none : Option (List Nat)) = none ∨ (none : Option (List Nat)) = none) ∧
    (update_graph loadedStore .pie none none = (.empty, loadedStore) ∧
     ∀ e : ErrLayout, BuildResult.empty ≠ .errorFig e) :=
  ⟨Or.inl rfl, build_empty_when_unselected loadedStore .pie none none (Or.inl rfl)⟩

/-- C3 counterexample: a failed upload does not clear the Table slot — with
a table already stored, uploading an unparsable payload leaves the stored
table readable, not absent. -/
theorem failed_upload_does_not_clear :
    parse_contents (strBytes "garbage") = .error .malformedUpload ∧
    ((update_dropdowns (some (strBytes "garbage")) loadedStore).2).df = some strTable ∧
    some strTable ≠ (none : Option Table) := by
  refine ⟨by decide, by decide, by decide⟩

/-- C3 (amended): a failed upload shows the alert and leaves the whole
session store — in particular the Table slot — unchanged. -/
theorem failed_upload_leaves_store (store : DataStore) (c : List Nat) (err : LoadError)
    (h : parse_contents c = .error err) :
    update_dropdowns (some c) store = (.alert, store) := by
  simp only [update_dropdowns, h]

theorem failed_upload_leaves_store_witness :
    parse_contents (strBytes "garbage") = .error .malformedUpload ∧
    update_dropdowns (some (strBytes "garbage")) loadedStore = (.alert, loadedStore) :=
  ⟨by decide, failed_upload_leaves_store loadedStore (strBytes "garbage") .malformedUpload
    (by decide)⟩

/-- C4 counterexample: a failed chart build does not overwrite the Chart
slot — the build returns the placeholder error chart, but the slot still
holds the previously successful chart. -/
theorem failed_build_keeps_old_chart :
    (update_graph loadedStore .scatter (some [97]) (some [98])).1 =
      .errorFig (errLayout (strBytes "size values must be numeric")) ∧
    ((update_graph loadedStore .scatter (some [97]) (some [98])).2).fig = some oldFig ∧
    some oldFig ≠ (none : Option Fig) := by
  refine ⟨by decide, by decide, by decide⟩

/-- C4 (amended): when the transform raises and the placeholder error chart
is produced, the session store — in particular the Chart slot — is left
unchanged, so a subsequent read still sees the last good chart. -/
theorem failed_build_leaves_store (store : DataStore) (df : Table) (k : ChartKind)
    (x y e : List Nat) (hdf : store.df = some df)
    (he : pxTransform k df x y = .error e) :
    (update_graph store k (some x) (some y)).2 = store := by
  unfold update_graph
  rw [hdf]
  simp only [he]

theorem failed_build_leaves_store_witness :
    loadedStore.df = some strTable ∧
    pxTransform .scatter strTable [97] [98] = .error (strBytes "size values must be numeric") ∧
    (update_graph loadedStore .scatter (some [97]) (some [98])).2 = loadedStore :=
  ⟨rfl, by decide,
   failed_build_leaves_store loadedStore strTable .scatter [97] [98]
     (strBytes "size values must be numeric") rfl (by decide)⟩

/-- C2 counterexample: the placeholder error chart does not carry the error
message as its annotation — the centered annotation holds a fixed advisory
text, while the error message is carried in the chart title. -/
theorem error_chart_ann_not_message :
    (update_graph loadedStore .scatter (some [97]) (some [98])).1 =
      .errorFig (errLayout (strBytes "size values must be numeric")) ∧
    (errLayout (strBytes "size values must be numeric")).anns.map AnnSpec.text =
      [errAdvisoryText] ∧
    errAdvisoryText ≠ strBytes "size values must be numeric" ∧
    (errLayout (strBytes "size values must be numeric")).title =
      strBytes "Error creating chart: size values must be numeric" := by
  refine ⟨by decide, by decide, by decide, by decide⟩

/-- C2 (amended): every exception raised by the chart transform is caught
and converted into a rendered placeholder error chart whose title carries
the error message and which shows a fixed advisory notice as a visible,
centered annotation; the build never propagates the exception (it always
returns a `BuildResult`). -/
theorem build_exception_to_error_chart (store : DataStore) (df : Table) (k : ChartKind)
    (x y e : List Nat) (hdf : store.df = some df)
    (he : pxTransform k df x y = .error e) :
    (update_graph store k (some x) (some y)).1 = .errorFig (errLayout e) ∧
    (errLayout e).title = strBytes "Error creating chart: " ++ e ∧
    (errLayout e).anns =
      [⟨errAdvisoryText, false, strBytes "paper", strBytes "paper", annHalf, annHalf, 16⟩] ∧
    annHalf = 1 / 2 := by
  refine ⟨?_, rfl, rfl, annHalf_eq⟩
  unfold update_graph
  rw [hdf]
  simp only [he]

theorem build_exception_to_error_chart_witness :
    loadedStore.df = some strTable ∧
    pxTransform .pie strTable [97] [98] = .error (strBytes "pie values must be numeric") ∧
    ((update_graph loadedStore .pie (some [97]) (some [98])).1 =
      .errorFig (errLayout (strBytes "pie values must be numeric")) ∧
     (errLayout (strBytes "pie values must be numeric")).title =
      strBytes "Error creating chart: " ++ strBytes "pie values must be numeric" ∧
     (errLayout (strBytes "pie values must be numeric")).anns =
      [⟨errAdvisoryText, false, strBytes "paper", strBytes "paper", annHalf, annHalf, 16⟩] ∧
     annHalf = 1 / 2) :=
  ⟨rfl, by decide,
   build_exception_to_error_chart loadedStore strTable .pie [97] [98]
     (strBytes "pie values must be numeric") rfl (by decide)⟩

/-- C10: a successful upload replaces only the Table slot and the column
classification; the Chart slot is untouched, so a PNG export right after the
upload still renders the chart built from the previous table. -/
theorem upload_preserves_chart_slot (store : DataStore) (c : List Nat) (df : Table)
    (h : parse_contents c = .ok df) :
    (update_dropdowns (some c) store).2 =
      { store with
          df := some df
          numeric_cols := some (get_column_types df).1
          categorical_cols := some (get_column_types df).2 } ∧
    ((update_dropdowns (some c) store).2).fig = store.fig ∧
    ∀ render : Fig → Nat → Nat → List Nat,
      download_chart render (update_dropdowns (some c) store).2 =
        download_chart render store := by
  have hstep : (update_dropdowns (some c) store).2 =
      { store with
          df := some df
          numeric_cols := some (get_column_types df).1
          categorical_cols := some (get_column_types df).2 } := by
    simp only [update_dropdowns, h]
  refine ⟨hstep, by rw [hstep], fun render => by rw [hstep]; unfold download_chart; rfl⟩

/-- The upload payload used by witnesses: a two-column CSV with a numeric
and a text column, wrapped as a data URI. -/
def demoPayload : List Nat :=
  strBytes "data:text/csv;base64," ++ b64encode (strBytes "a,b\n1,x\n2,y")

/-- The table `demoPayload` parses to. -/
def demoTable : Table :=
  ⟨[[97], [98]], [true, false], [[.int 1, .str [120]], [.int 2, .str [121]]]⟩

theorem upload_preserves_chart_slot_witness :
    parse_contents demoPayload = .ok demoTable ∧
    ((update_dropdowns (some demoPayload) loadedStore).2 =
      { loadedStore with
          df := some demoTable
          numeric_cols := some (get_column_types demoTable).1
          categorical_cols := some (get_column_types demoTable).2 } ∧
     ((update_dropdowns (some demoPayload) loadedStore).2).fig = loadedStore.fig ∧
     ∀ render : Fig → Nat → Nat → List Nat,
       download_chart render (update_dropdowns (some demoPayload) loadedStore).2 =
         download_chart render loadedStore) :=
  ⟨by decide, upload_preserves_chart_slot loadedStore demoPayload demoTable (by decide)⟩

/-- C5: the loader accepts exactly the payload shape
`descriptor ++ "," ++ body` (one comma, so the split yields exactly a
descriptor and a base64 body); every payload not of this shape — in
particular any payload containing no comma — fails with `MalformedUpload`
and never produces a Table. -/
theorem upload_shape_or_malformed (payload : List Nat) :
    (44 ∉ payload → parse_contents payload = .error .malformedUpload) ∧
    (44 ∉ payload → ∀ t : Table, parse_contents payload ≠ .ok t) ∧
    (parse_contents payload = .error .malformedUpload ↔
      ¬∃ d b, payload = d ++ 44 :: b ∧ 44 ∉ d ∧ 44 ∉ b) := by
  have hparts := splitOnByte_parts_no_sep 44 payload
  have hjoin := joinBy_splitOnByte 44 payload
  have hshape : (∃ d b, payload = d ++ 44 :: b ∧ 44 ∉ d ∧ 44 ∉ b) ↔
      ∃ d b, splitOnByte 44 payload = [d, b] := by
    constructor
    · rintro ⟨d, b, rfl, hd, hb⟩
      exact ⟨d, b, by rw [splitOnByte_append_sep 44 d b hd, splitOnByte_no_sep 44 b hb]⟩
    · rintro ⟨d, b, hsp⟩
      refine ⟨d, b, ?_, hparts d (by rw [hsp]; simp), hparts b (by rw [hsp]; simp)⟩
      rw [← hjoin, hsp]
      rfl
  have hmal : parse_contents payload = .error .malformedUpload ↔
      ¬∃ d b, splitOnByte 44 payload = [d, b] := by
    unfold parse_contents
    rcases hsp : splitOnByte 44 payload with _ | ⟨d, _ | ⟨b, _ | _⟩⟩
    · simp
    · simp
    · constructor
      · intro hpc
        exfalso
        rcases hdec : b64decode b with _ | dec
        · simp [hdec] at hpc
        · rcases hcsv : read_csv dec with _ | t
          · simp [hdec, hcsv] at hpc
          · simp [hdec, hcsv] at hpc
      · intro hno
        exact absurd ⟨d, b, rfl⟩ hno
    · simp
  refine ⟨?_, ?_, by rw [hmal, hshape]⟩
  · intro hnc
    have hsp := splitOnByte_no_sep 44 payload hnc
    unfold parse_contents
    rw [hsp]
  · intro hnc t
    have hsp := splitOnByte_no_sep 44 payload hnc
    unfold parse_contents
    rw [hsp]
    simp

theorem upload_shape_or_malformed_witness :
    44 ∉ strBytes "garbage" ∧
    parse_contents (strBytes "garbage") = .error .malformedUpload ∧
    ∀ t : Table, parse_contents (strBytes "garbage") ≠ .ok t :=
  ⟨by decide, (upload_shape_or_malformed (strBytes "garbage")).1 (by decide),
   (upload_shape_or_malformed (strBytes "garbage")).2.1 (by decide)⟩

/-- C6: a payload exceeding the 5 MB boundary limit is rejected with
`PayloadTooLarge` by the size check alone — the recorded pipeline trace is
exactly the size check, so neither the base64 decode nor the CSV parse step
is ever attempted. -/
theorem oversize_rejected_before_decode (payload : List Nat)
    (h : payload.length > MAX_CONTENT_LENGTH) :
    boundaryLoadTrace payload = (.error .payloadTooLarge, [.sizeCheck]) ∧
    LoadStep.b64 ∉ (boundaryLoadTrace payload).2 ∧
    LoadStep.csv ∉ (boundaryLoadTrace payload).2 := by
  have hb : boundaryLoadTrace payload = (.error .payloadTooLarge, [.sizeCheck]) := by
    unfold boundaryLoadTrace
    rw [if_pos h]
  exact ⟨hb, by rw [hb]; decide, by rw [hb]; decide⟩

theorem oversize_rejected_before_decode_witness :
    (List.replicate (MAX_CONTENT_LENGTH + 1) 65).length > MAX_CONTENT_LENGTH ∧
    boundaryLoadTrace (List.replicate (MAX_CONTENT_LENGTH + 1) 65) =
      (.error .payloadTooLarge, [.sizeCheck]) := by
  have hlen : (List.replicate (MAX_CONTENT_LENGTH + 1) 65).length > MAX_CONTENT_LENGTH := by
    rw [List.length_replicate]
    omega
  exact ⟨hlen, (oversize_rejected_before_decode _ hlen).1⟩

theorem safe_delete_unlocked (locked : Nat → Bool) (fs : List Nat) (p : Nat)
    (hmem : p ∈ fs) (hfree : ∃ a ∈ List.range 5, locked a = false) :
    safe_delete locked fs p = (true, fs.erase p) :=
  safe_delete_go_unlocked locked fs p (List.range 5) hmem hfree

/-- C8: on every exit path of the PDF export — success, a failure injected
at any delegated step, or no failure — every temporary file the export
created is deleted again provided each file's lock (if any) clears within
the five retry attempts, so the filesystem ends exactly as it began; and the
export's outcome never depends on the lock schedules, i.e. exhausted cleanup
retries are swallowed rather than failing the export. -/
theorem pdf_export_cleans_up (render : Fig → Nat → Nat → List Nat)
    (store : DataStore) (sc : PdfScenario) (tmpImg tmpPdf : Nat) (fs : List Nat)
    (hImg : tmpImg ∉ fs) (hPdf : tmpPdf ∉ fs) (hne : tmpImg ≠ tmpPdf)
    (hfreeImg : ∃ a ∈ List.range 5, sc.lockImg a = false)
    (hfreePdf : ∃ a ∈ List.range 5, sc.lockPdf a = false) :
    (download_pdf render store sc tmpImg tmpPdf fs).2 = fs ∧
    ∀ lockI lockP : Nat → Bool,
      (download_pdf render store ⟨sc.failAt, lockI, lockP⟩ tmpImg tmpPdf fs).1 =
        (download_pdf render store sc tmpImg tmpPdf fs).1 := by
  have herase2 : ∀ g : List Nat, (tmpPdf :: tmpImg :: g).erase tmpImg = tmpPdf :: g := by
    intro g
    rw [List.erase_cons_tail (by simpa using fun hc => hne hc.symm), List.erase_cons_head]
  have hdel1 : ∀ lock : Nat → Bool, (∃ a ∈ List.range 5, lock a = false) →
      safe_delete lock (tmpImg :: fs) tmpImg = (true, fs) := by
    intro lock hfree
    rw [safe_delete_unlocked lock _ tmpImg (by simp) hfree, List.erase_cons_head]
  have hdel2 : ∀ lock : Nat → Bool, (∃ a ∈ List.range 5, lock a = false) →
      safe_delete lock (tmpPdf :: tmpImg :: fs) tmpImg = (true, tmpPdf :: fs) := by
    intro lock hfree
    rw [safe_delete_unlocked lock _ tmpImg (by simp) hfree, herase2]
  have hdel3 : ∀ lock : Nat → Bool, (∃ a ∈ List.range 5, lock a = false) →
      safe_delete lock (tmpPdf :: fs) tmpPdf = (true, fs) := by
    intro lock hfree
    rw [safe_delete_unlocked lock _ tmpPdf (by simp) hfree, List.erase_cons_head]
  constructor
  · unfold download_pdf
    rcases store.fig with _ | fig <;> rcases store.df with _ | df
    · rfl
    · rfl
    · rfl
    · by_cases h0 : sc.fails .toImage
      · simp [h0]
      · simp only [h0, Bool.false_eq_true, if_false]
        unfold download_pdf_try
        rcases hfa : sc.failAt with _ | st
        · simp [PdfScenario.fails, hfa, hdel2 sc.lockImg hfreeImg, hdel3 sc.lockPdf hfreePdf]
        · cases st <;>
            simp [PdfScenario.fails, hfa, hdel1 sc.lockImg hfreeImg,
              hdel2 sc.lockImg hfreeImg, hdel3 sc.lockPdf hfreePdf]
  · intro lockI lockP
    unfold download_pdf
    rcases store.fig with _ | fig <;> rcases store.df with _ | df
    · rfl
    · rfl
    · rfl
    · by_cases h0 : sc.fails .toImage
      · simp [PdfScenario.fails] at h0 ⊢
        simp [h0]
      · have h0' : (⟨sc.failAt, lockI, lockP⟩ : PdfScenario).fails .toImage = false := by
          simpa [PdfScenario.fails] using h0
        simp only [h0', h0, Bool.false_eq_true, if_false]
        unfold download_pdf_try
        rcases hfa : sc.failAt with _ | st
        · simp [PdfScenario.fails, hfa]
        · cases st <;> simp [PdfScenario.fails, hfa]

theorem pdf_export_cleans_up_witness :
    (1 ∉ [0] ∧ 2 ∉ [0] ∧ 1 ≠ 2 ∧
     (∃ a ∈ List.range 5, (fun i => decide (i = 0)) a = false) ∧
     (∃ a ∈ List.range 5, (fun _ : Nat => false) a = false)) ∧
    ((download_pdf (fun _ _ _ => []) loadedStore
        ⟨none, fun i => decide (i = 0), fun _ => false⟩ 1 2 [0]).2 = [0] ∧
     ∀ lockI lockP : Nat → Bool,
       (download_pdf (fun _ _ _ => []) loadedStore ⟨none, lockI, lockP⟩ 1 2 [0]).1 =
         (download_pdf (fun _ _ _ => []) loadedStore
           ⟨none, fun i => decide (i = 0), fun _ => false⟩ 1 2 [0]).1) :=
  ⟨⟨by decide, by decide, by decide, ⟨1, by decide, by decide⟩, ⟨0, by decide, rfl⟩⟩,
   pdf_export_cleans_up (fun _ _ _ => []) loadedStore
     ⟨none, fun i => decide (i = 0), fun _ => false⟩ 1 2 [0]
     (by decide) (by decide) (by decide) ⟨1, by decide, by decide⟩ ⟨0, by decide, rfl⟩⟩

theorem map_fst_filter_zip {α β : Type} (pred : α → Bool) :
    ∀ (as : List α) (bs : List β), as.length = bs.length →
      ((as.zip bs).filter (fun p => pred p.1)).map Prod.fst = as.filter pred := by
  intro as
  induction as with
  | nil => intro bs _; simp
  | cons a as ih =>
    intro bs h
    cases bs with
    | nil => simp at h
    | cons b bs =>
      simp only [List.zip_cons_cons, List.filter_cons]
      by_cases hp : pred a
      · simp only [hp, if_pos]
        simp only [List.map_cons, ih bs (by simpa using h)]
      · simp only [hp, Bool.false_eq_true, if_false, ih bs (by simpa using h)]

theorem getCol_length (t : Table) (name : List Nat) (h : name ∈ t.header) :
    (getCol t name).length = t.rows.length := by
  unfold getCol colIdx
  rcases hix : idxOf? name t.header with _ | j
  · have := (idxOf?_isSome_iff name t.header).mpr h
    rw [hix] at this
    cases this
  · simp

/-- C1: a pie build over existing columns (with a numeric y, the type the
aggregated sum presupposes) first aggregates y by summing within each
distinct x value: it produces a figure with exactly one slice per distinct
(non-missing) x value of the table, each sized by the sum of y over the rows
sharing that x value — never one slice per raw row. -/
theorem pie_preaggregates (store : DataStore) (t : Table) (x y : List Nat)
    (hdf : store.df = some t)
    (hx : x ∈ t.header) (hy : y ∈ t.header)
    (hnum : colNumeric t y = true) :
    ∃ slices : List (Cell × Int),
      (update_graph store .pie (some x) (some y)).1 =
        .fig ⟨.pieSlices slices, chartTitle .pie x y, some stdLayout⟩ ∧
      slices.map Prod.fst = ((getCol t x).filter (fun c => c ≠ .na)).dedup ∧
      (slices.map Prod.fst).Nodup ∧
      ∀ p ∈ slices,
        p.2 = ((((getCol t x).zip (getCol t y)).filter (fun q => q.1 = p.1)).map
          (fun q => match q.2 with | .int n => n | _ => 0)).sum := by
  have hxn : (colIdx t x).isNone = false := by
    have hs := (idxOf?_isSome_iff x t.header).mpr hx
    unfold colIdx
    rcases hix : idxOf? x t.header with _ | j
    · rw [hix] at hs
      simp at hs
    · rfl
  have hyn : (colIdx t y).isNone = false := by
    have hs := (idxOf?_isSome_iff y t.header).mpr hy
    unfold colIdx
    rcases hiy : idxOf? y t.header with _ | j
    · rw [hiy] at hs
      simp at hs
    · rfl
  have hpx : pxTransform .pie t x y =
      .ok (.pieSlices (groupbySum ((getCol t x).zip (getCol t y)))) := by
    unfold pxTransform
    rw [hxn, hyn]
    simp [hnum]
  refine ⟨groupbySum ((getCol t x).zip (getCol t y)), ?_, ?_, ?_, ?_⟩
  · unfold update_graph
    rw [hdf]
    simp only [hpx]
  · unfold groupbySum
    simp only [List.map_map]
    have hcomp : (Prod.fst ∘ fun k : Cell =>
        (k, ((((getCol t x).zip (getCol t y)).filter (fun p => p.1 ≠ .na)).filter
          (fun p => p.1 = k) |>.map (fun p => match p.2 with | .int n => n | _ => 0)).sum))
        = id := by
      funext k
      rfl
    rw [hcomp, List.map_id]
    congr 1
    exact map_fst_filter_zip (fun c => decide (c ≠ Cell.na)) (getCol t x) (getCol t y)
      (by rw [getCol_length t x hx, getCol_length t y hy])
  · have hfst : (groupbySum ((getCol t x).zip (getCol t y))).map Prod.fst =
        ((((getCol t x).zip (getCol t y)).filter (fun p => p.1 ≠ .na)).map Prod.fst).dedup := by
      unfold groupbySum
      simp only [List.map_map]
      have hcomp : (Prod.fst ∘ fun k : Cell =>
          (k, ((((getCol t x).zip (getCol t y)).filter (fun p => p.1 ≠ .na)).filter
            (fun p => p.1 = k) |>.map (fun p => match p.2 with | .int n => n | _ => 0)).sum))
          = id := by
        funext k
        rfl
      rw [hcomp, List.map_id]
    rw [hfst]
    exact List.nodup_dedup _
  · intro p hp
    unfold groupbySum at hp
    simp only [List.mem_map] at hp
    obtain ⟨k, hk, rfl⟩ := hp
    simp only
    have hkne : k ≠ Cell.na := by
      rw [List.mem_dedup, List.mem_map] at hk
      obtain ⟨q, hq, rfl⟩ := hk
      have := List.of_mem_filter hq
      simpa using this
    congr 1
    rw [List.filter_filter]
    congr 1
    apply List.filter_congr
    intro q _
    by_cases hqe : q.1 = k
    · simp [hqe, hkne]
    · simp [hqe]

/-- The spec section 8 pie example table: x values A, B, A (column name
code 120) and y values 3, 5, 2 (column name code 121). -/
def demoPieTable : Table :=
  ⟨[[120], [121]], [false, true],
   [[.str [65], .int 3], [.str [66], .int 5], [.str [65], .int 2]]⟩

theorem pie_preaggregates_witness :
    (⟨some demoPieTable, none, none, none⟩ : DataStore).df = some demoPieTable ∧
    [120] ∈ demoPieTable.header ∧ [121] ∈ demoPieTable.header ∧
    colNumeric demoPieTable [121] = true ∧
    ∃ slices : List (Cell × Int),
      (update_graph ⟨some demoPieTable, none, none, none⟩ .pie
          (some [120]) (some [121])).1 =
        .fig ⟨.pieSlices slices, chartTitle .pie [120] [121], some stdLayout⟩ ∧
      slices.map Prod.fst =
        ((getCol demoPieTable [120]).filter (fun c => c ≠ .na)).dedup ∧
      (slices.map Prod.fst).Nodup ∧
      ∀ p ∈ slices,
        p.2 = ((((getCol demoPieTable [120]).zip (getCol demoPieTable [121])).filter
          (fun q => q.1 = p.1)).map
          (fun q => match q.2 with | .int n => n | _ => 0)).sum :=
  ⟨rfl, by decide, by decide, by decide,
   pie_preaggregates ⟨some demoPieTable, none, none, none⟩ demoPieTable [120] [121]
     rfl (by decide) (by decide) (by decide)⟩

/-- The spec's pie example: duplicate x values A, B, A with y values 3, 5, 2
aggregate to one slice per distinct x with sums 5 and 5. -/
theorem pie_example_slices :
    (update_graph ⟨some demoPieTable, none, none, none⟩ .pie
        (some [120]) (some [121])).1 =
      .fig ⟨.pieSlices [(.str [66], 5), (.str [65], 5)],
            chartTitle .pie [120] [121], some stdLayout⟩ := by decide

/-- A CSV field the model treats exactly like the delegated parser: byte
values (so < 256) that are not the comma, newline, carriage return or quote
(fields containing those engage the delegated library's quoting rules,
outside this model). -/
def fieldClean (f : List Nat) : Prop :=
  ∀ b ∈ f, b < 256 ∧ b ≠ 44 ∧ b ≠ 10 ∧ b ≠ 13 ∧ b ≠ 34

instance (f : List Nat) : Decidable (fieldClean f) := by
  unfold fieldClean
  infer_instance

/-- "The same value modulo numeric formatting": the fields are equal, or
both parse as the same integer. -/
def fieldEquiv (f g : List Nat) : Prop :=
  f = g ∨ ∃ n : Int, parseInt f = some n ∧ parseInt g = some n

theorem mem_joinBy (sep : Nat) :
    ∀ (parts : List (List Nat)), ∀ b ∈ joinBy sep parts, b = sep ∨ ∃ p ∈ parts, b ∈ p
  | [] => by simp [joinBy]
  | [p] => by
    intro b hb
    exact Or.inr ⟨p, by simp, by simpa [joinBy] using hb⟩
  | p :: q :: rest => by
    intro b hb
    simp only [joinBy, List.mem_append, List.mem_cons] at hb
    rcases hb with hb | hb | hb
    · exact Or.inr ⟨p, by simp, hb⟩
    · exact Or.inl hb
    · rcases mem_joinBy sep (q :: rest) b hb with h | ⟨p', hp', hb'⟩
      · exact Or.inl h
      · exact Or.inr ⟨p', List.mem_cons_of_mem _ hp', hb'⟩

theorem joinBy_ne_nil (sep : Nat) (parts : List (List Nat))
    (hne : parts ≠ []) (h : ∀ p ∈ parts, p ≠ []) :
    joinBy sep parts ≠ [] := by
  match parts with
  | [] => exact absurd rfl hne
  | [p] => simpa [joinBy] using h p (by simp)
  | p :: q :: rest => simp [joinBy]

theorem getD_eq_get {α : Type} (l : List α) (d : α) (j : Nat) (h : j < l.length) :
    l.getD j d = l.get ⟨j, h⟩ := by
  induction l generalizing j with
  | nil => simp at h
  | cons a l ih =>
    cases j with
    | zero => rfl
    | succ j => exact ih j (by simpa using h)

theorem forall₂_of_pointwise {α β : Type} (P : α → β → Prop) :
    ∀ (l1 : List α) (l2 : List β), l1.length = l2.length →
      (∀ (j : Nat) (h1 : j < l1.length) (h2 : j < l2.length),
        P (l1.get ⟨j, h1⟩) (l2.get ⟨j, h2⟩)) →
      List.Forall₂ P l1 l2 := by
  intro l1
  induction l1 with
  | nil =>
    intro l2 h _
    cases l2 with
    | nil => exact .nil
    | cons b l2 => simp at h
  | cons a l1 ih =>
    intro l2 h hp
    cases l2 with
    | nil => simp at h
    | cons b l2 =>
      refine .cons (hp 0 (by simp) (by simp)) (ih l2 (by simpa using h) ?_)
      intro j h1 h2
      exact hp (j + 1) (by simpa using Nat.succ_lt_succ h1) (by simpa using Nat.succ_lt_succ h2)

theorem forall₂_self_map {α β : Type} (f : α → β) (P : α → β → Prop) (l : List α)
    (h : ∀ a ∈ l, P a (f a)) : List.Forall₂ P l (l.map f) := by
  induction l with
  | nil => exact .nil
  | cons a l ih =>
    exact .cons (h a (by simp)) (ih (fun a' ha' => h a' (List.mem_cons_of_mem _ ha')))

/-- Serialising the typed cells of a row reproduces the row's normal-form
fields, column by column. -/
theorem map_cellToBytes_zipWith (mask : List Bool) (r : List (List Nat))
    (h : List.Forall₂ (fun m f => m = true → (parseInt f).isSome) mask r) :
    (List.zipWith cellOf mask r).map cellToBytes = List.zipWith normField mask r := by
  induction h with
  | nil => rfl
  | @cons m f mask' r' hp _ ih =>
    simp only [List.zipWith_cons_cons, List.map_cons, ih]
    congr 1
    by_cases hm : m = true
    · subst hm
      rcases hs : parseInt f with _ | n
      · rw [hs] at hp
        simp at hp
      · simp [cellOf, normField, hs, cellToBytes]
    · rw [Bool.not_eq_true] at hm
      subst hm
      simp only [cellOf, normField, Bool.false_eq_true, if_false]
      by_cases hf : f = []
      · simp [hf, cellToBytes]
      · simp [hf, cellToBytes]

/-- Each raw field is equal to its normal form modulo numeric formatting. -/
theorem forall₂_fieldEquiv_normField (mask : List Bool) (r : List (List Nat))
    (h : List.Forall₂ (fun m f => m = true → (parseInt f).isSome) mask r) :
    List.Forall₂ fieldEquiv r (List.zipWith normField mask r) := by
  induction h with
  | nil => exact .nil
  | @cons m f mask' r' hp _ ih =>
    simp only [List.zipWith_cons_cons]
    refine .cons ?_ ih
    by_cases hm : m = true
    · subst hm
      rcases hs : parseInt f with _ | n
      · rw [hs] at hp
        simp at hp
      · exact Or.inr ⟨n, hs, by simp [normField, hs, parseInt_intToBytes]⟩
    · rw [Bool.not_eq_true] at hm
      subst hm
      exact Or.inl (by simp [normField])

/-- C7: for every valid delimited text — a header row of distinct non-empty
clean fields and at least one data row of clean fields of matching width —
uploading it (as a data-URI payload) and then exporting the current Table to
CSV yields the same header verbatim and the same row values modulo numeric
formatting, with no index column added (every output line has exactly the
input's fields). -/
theorem load_export_roundtrip (store : DataStore) (descriptor : List Nat)
    (H : List (List Nat)) (R : List (List (List Nat)))
    (hdesc : 44 ∉ descriptor)
    (hHne : H ≠ [])
    (hRne : R ≠ [])
    (hHclean : ∀ f ∈ H, fieldClean f)
    (hHnonempty : ∀ f ∈ H, f ≠ [])
    (hRclean : ∀ r ∈ R, ∀ f ∈ r, fieldClean f)
    (hwidth : ∀ r ∈ R, r.length = H.length)
    (hRowline : ∀ r ∈ R, joinBy 44 r ≠ []) :
    ∃ t : Table,
      parse_contents
        (descriptor ++ 44 :: b64encode (joinBy 10 (joinBy 44 H :: R.map (joinBy 44)))) =
        .ok t ∧
      t.header = H ∧
      ((update_dropdowns
        (some (descriptor ++ 44 :: b64encode (joinBy 10 (joinBy 44 H :: R.map (joinBy 44)))))
        store).2).df = some t ∧
      download_csv (update_dropdowns
        (some (descriptor ++ 44 :: b64encode (joinBy 10 (joinBy 44 H :: R.map (joinBy 44)))))
        store).2 =
        some (joinBy 44 H ++ 10 ::
          (R.map (fun r =>
            joinBy 44 (List.zipWith normField (colMask H.length R) r) ++ [10])).flatten,
          strBytes "data.csv") ∧
      List.Forall₂ (fun r r' => List.Forall₂ fieldEquiv r r') R
        (R.map (fun r => List.zipWith normField (colMask H.length R) r)) := by
  have hbound : ∀ b ∈ joinBy 10 (joinBy 44 H :: R.map (joinBy 44)), b < 256 := by
    intro b hb
    rcases mem_joinBy 10 _ b hb with rfl | ⟨line, hline, hbl⟩
    · omega
    · rcases List.mem_cons.mp hline with rfl | hline'
      · rcases mem_joinBy 44 H b hbl with rfl | ⟨f, hf, hbf⟩
        · omega
        · exact (hHclean f hf b hbf).1
      · obtain ⟨r, hr, rfl⟩ := List.mem_map.mp hline'
        rcases mem_joinBy 44 r b hbl with rfl | ⟨f, hf, hbf⟩
        · omega
        · exact (hRclean r hr f hf b hbf).1
  have hsplit : splitOnByte 44
      (descriptor ++ 44 :: b64encode (joinBy 10 (joinBy 44 H :: R.map (joinBy 44)))) =
      [descriptor, b64encode (joinBy 10 (joinBy 44 H :: R.map (joinBy 44)))] := by
    rw [splitOnByte_append_sep 44 descriptor _ hdesc,
        splitOnByte_no_sep 44 _ (b64encode_no_comma _ hbound)]
  have hlines_no10 : ∀ l ∈ (joinBy 44 H :: R.map (joinBy 44)), 10 ∉ l := by
    intro l hl hmem
    rcases List.mem_cons.mp hl with rfl | hl'
    · rcases mem_joinBy 44 H 10 hmem with h | ⟨f, hf, hbf⟩
      · omega
      · exact (hHclean f hf 10 hbf).2.2.1 rfl
    · obtain ⟨r, hr, rfl⟩ := List.mem_map.mp hl'
      rcases mem_joinBy 44 r 10 hmem with h | ⟨f, hf, hbf⟩
      · omega
      · exact (hRclean r hr f hf 10 hbf).2.2.1 rfl
  have hfilter : (splitOnByte 10 (joinBy 10 (joinBy 44 H :: R.map (joinBy 44)))).filter
      (fun l => l ≠ []) = joinBy 44 H :: R.map (joinBy 44) := by
    rw [splitOnByte_joinBy 10 _ (by simp) hlines_no10]
    apply List.filter_eq_self.mpr
    intro l hl
    rcases List.mem_cons.mp hl with rfl | hl'
    · simpa using joinBy_ne_nil 44 H hHne hHnonempty
    · obtain ⟨r, hr, rfl⟩ := List.mem_map.mp hl'
      simpa using hRowline r hr
  have hsplitH : splitOnByte 44 (joinBy 44 H) = H :=
    splitOnByte_joinBy 44 H hHne
      (fun f hf hmem => (hHclean f hf 44 hmem).2.1 rfl)
  have hmapR : (R.map (joinBy 44)).map (splitOnByte 44) = R := by
    rw [List.map_map]
    have hpt : ∀ r ∈ R, (splitOnByte 44 ∘ joinBy 44) r = id r := by
      intro r hr
      have hrne : r ≠ [] := by
        intro hremp
        have := hwidth r hr
        rw [hremp] at this
        simp only [List.length_nil] at this
        exact hHne (List.eq_nil_of_length_eq_zero this.symm)
      exact splitOnByte_joinBy 44 r hrne
        (fun f hf hmem => (hRclean r hr f hf 44 hmem).2.1 rfl)
    rw [List.map_congr_left hpt, List.map_id]
  have hall : R.all (fun r => r.length = H.length) = true :=
    List.all_eq_true.mpr (fun r hr => by simpa using hwidth r hr)
  have hread : read_csv (joinBy 10 (joinBy 44 H :: R.map (joinBy 44))) =
      some ⟨H, colMask H.length R,
            R.map (fun r => List.zipWith cellOf (colMask H.length R) r)⟩ := by
    unfold read_csv
    simp only [hfilter, hsplitH, hmapR, hall, if_pos]
  have hparse : parse_contents
      (descriptor ++ 44 :: b64encode (joinBy 10 (joinBy 44 H :: R.map (joinBy 44)))) =
      .ok ⟨H, colMask H.length R,
           R.map (fun r => List.zipWith cellOf (colMask H.length R) r)⟩ := by
    unfold parse_contents
    rw [hsplit]
    simp only [b64decode_b64encode _ hbound, hread]
  have hmaskprop : ∀ r ∈ R,
      List.Forall₂ (fun m f => m = true → (parseInt f).isSome) (colMask H.length R) r := by
    intro r hr
    apply forall₂_of_pointwise
    · simp only [colMask, List.length_map, List.length_range]
      exact (hwidth r hr).symm
    · intro j h1 h2
      simp only [List.get_eq_getElem, colMask, List.getElem_map, List.getElem_range]
      intro hmTrue
      have hmem := List.all_eq_true.mp hmTrue r hr
      rw [getD_eq_get r [] j h2] at hmem
      simpa using hmem
  have hstore : (update_dropdowns
      (some (descriptor ++ 44 :: b64encode (joinBy 10 (joinBy 44 H :: R.map (joinBy 44)))))
      store).2 =
      { store with
          df := some ⟨H, colMask H.length R,
                      R.map (fun r => List.zipWith cellOf (colMask H.length R) r)⟩
          numeric_cols := some (get_column_types ⟨H, colMask H.length R,
            R.map (fun r => List.zipWith cellOf (colMask H.length R) r)⟩).1
          categorical_cols := some (get_column_types ⟨H, colMask H.length R,
            R.map (fun r => List.zipWith cellOf (colMask H.length R) r)⟩).2 } := by
    simp only [update_dropdowns, hparse]
  have hto_csv : to_csv ⟨H, colMask H.length R,
      R.map (fun r => List.zipWith cellOf (colMask H.length R) r)⟩ =
      joinBy 44 H ++ 10 ::
        (R.map (fun r =>
          joinBy 44 (List.zipWith normField (colMask H.length R) r) ++ [10])).flatten := by
    unfold to_csv
    simp only [List.map_map]
    congr 2
    congr 1
    apply List.map_congr_left
    intro r hr
    simp only [Function.comp_apply]
    rw [map_cellToBytes_zipWith _ _ (hmaskprop r hr)]
  refine ⟨⟨H, colMask H.length R,
    R.map (fun r => List.zipWith cellOf (colMask H.length R) r)⟩,
    hparse, rfl, ?_, ?_, ?_⟩
  · rw [hstore]
  · rw [hstore]
    unfold download_csv
    simp only [hto_csv]
  · exact forall₂_self_map _ _ R
      (fun r hr => forall₂_fieldEquiv_normField _ _ (hmaskprop r hr))

/-- The concrete roundtrip instance used by the C7 witness: header `a,b`,
rows `003,x` and `-7,yy`. -/
def demoH : List (List Nat) := [strBytes "a", strBytes "b"]

def demoR : List (List (List Nat)) := [[strBytes "003", strBytes "x"], [strBytes "-7", strBytes "yy"]]

theorem load_export_roundtrip_witness :
    (44 ∉ strBytes "data:text/csv;base64" ∧
     demoH ≠ [] ∧
     demoR ≠ [] ∧
     (∀ f ∈ demoH, fieldClean f) ∧
     (∀ f ∈ demoH, f ≠ []) ∧
     (∀ r ∈ demoR, ∀ f ∈ r, fieldClean f) ∧
     (∀ r ∈ demoR, r.length = demoH.length) ∧
     (∀ r ∈ demoR, joinBy 44 r ≠ [])) ∧
    (∃ t : Table,
      parse_contents
        (strBytes "data:text/csv;base64" ++ 44 ::
          b64encode (joinBy 10 (joinBy 44 demoH :: demoR.map (joinBy 44)))) =
        .ok t ∧
      t.header = demoH ∧
      ((update_dropdowns
        (some (strBytes "data:text/csv;base64" ++ 44 ::
          b64encode (joinBy 10 (joinBy 44 demoH :: demoR.map (joinBy 44)))))
        emptyStore).2).df = some t ∧
      download_csv (update_dropdowns
        (some (strBytes "data:text/csv;base64" ++ 44 ::
          b64encode (joinBy 10 (joinBy 44 demoH :: demoR.map (joinBy 44)))))
        emptyStore).2 =
        some (joinBy 44 demoH ++ 10 ::
          (demoR.map (fun r =>
            joinBy 44 (List.zipWith normField (colMask demoH.length demoR) r) ++ [10])).flatten,
          strBytes "data.csv") ∧
      List.Forall₂ (fun r r' => List.Forall₂ fieldEquiv r r') demoR
        (demoR.map (fun r => List.zipWith normField (colMask demoH.length demoR) r))) :=
  ⟨⟨by decide, by decide, by decide, by decide, by decide, by decide, by decide, by decide⟩,
   load_export_roundtrip emptyStore (strBytes "data:text/csv;base64") demoH demoR
     (by decide) (by decide) (by decide) (by decide) (by decide) (by decide)
     (by decide) (by decide)⟩

/-- The concrete roundtrip, evaluated end to end: uploading
`a,b` / `003,x` / `-7,yy` and exporting gives back the same header and rows,
with `003` re-serialised in canonical numeric form `3` (and pandas'
trailing newline). -/
theorem load_export_roundtrip_example :
    download_csv (update_dropdowns
      (some (strBytes "data:text/csv;base64," ++ b64encode (strBytes "a,b\n003,x\n-7,yy")))
      emptyStore).2 =
      some (strBytes "a,b\n3,x\n-7,yy\n", strBytes "data.csv") := by decide
